import Mathlib

/-!
Verification of the MCP tool invocation and response-normalization layer of
the gemini-cli repository, shallowly embedded in Lean 4.

The embedding follows src/packages/cli/src/ui/utils/imageUtils.ts (which
contains the DiscoveredMCPTool / DiscoveredMCPToolInvocation implementation
and the content-block normalizer).  JavaScript strings are modelled as Lean
strings (code points; identical to UTF-16 code units on the BMP inputs the
claims use), `undefined`-able fields as `Option`, JS truthiness of a string
as nonemptiness, the file system and clock as explicit parameters, and the
process-wide allowlist as explicitly passed state.
-/

namespace GeminiMcp

/-- JS truthiness of a `string | undefined` value: `undefined` and the empty
string are falsy. -/
def jsTruthyS : Option String → Bool
  | some s => s ≠ ""
  | none => false

/-- JS `a || b` on `string | undefined` values: returns `a` when truthy,
otherwise `b`. -/
def jsOrOpt (a b : Option String) : Option String :=
  match a with
  | some s => if s ≠ "" then some s else b
  | none => b

/-- JS `a || d` where `a : string | undefined` and `d` a string default. -/
def jsOrDefault (a : Option String) (d : String) : String :=
  match a with
  | some s => if s ≠ "" then s else d
  | none => d

/-- Interpolating a possibly-`undefined` value into a JS template literal:
`undefined` prints as the string "undefined". -/
def jsTemplateOpt : Option String → String
  | some s => s
  | none => "undefined"

/-! ## Tool name sanitizer (`generateValidName`) -/

/-- The character class `[a-zA-Z0-9_.-]` of the sanitizer's regex. -/
def validNameChar (c : Char) : Bool :=
  (('a' ≤ c && c ≤ 'z') || ('A' ≤ c && c ≤ 'Z') || ('0' ≤ c && c ≤ '9')
    || c == '_' || c == '.' || c == '-')

/-- Embedding of `generateValidName` from the source: replace every character outside
`[a-zA-Z0-9_.-]` with an underscore; if the result is longer than 63
characters, keep the first 28, a `___` separator, and the last 32
(JS `slice(0, 28) + '___' + slice(-32)`). -/
def generateValidName (name : String) : String :=
  let validToolname : List Char :=
    name.data.map (fun c => if validNameChar c then c else '_')
  if validToolname.length > 63 then
    ⟨validToolname.take 28 ++ ['_', '_', '_']
      ++ validToolname.drop (validToolname.length - 32)⟩
  else
    ⟨validToolname⟩

/-! ## Decimal printing of numbers

`Date.now()` and the block index are interpolated into the temp file name
with JS number-to-string conversion, which prints integers in decimal. -/

/-- One decimal digit character (`0 ≤ n < 10`). -/
def decDigitChar (n : Nat) : Char :=
  Char.ofNat (48 + n)

/-- Big-endian decimal digit list of a natural number, with structural
fuel so the kernel can evaluate it (`fuel` strictly dominates `n`). -/
def decDigitsAux : Nat → Nat → List Char
  | 0, _ => []
  | fuel + 1, n =>
    if n < 10 then [decDigitChar n]
    else decDigitsAux fuel (n / 10) ++ [decDigitChar (n % 10)]

/-- Big-endian decimal digit list of a natural number. -/
def decDigits (n : Nat) : List Char :=
  decDigitsAux (n + 1) n

/-- Decimal string of a natural number (JS integer-to-string). -/
def decRepr (n : Nat) : String :=
  ⟨decDigits n⟩

/-! ## MCP content blocks (the discriminated union from the source) -/

/-- The `'image' | 'audio'` media kind tag. -/
inductive MediaKind where
  | image
  | audio
deriving DecidableEq, Repr

/-- Printed form of the media kind tag (`block.type`). -/
def MediaKind.toTag : MediaKind → String
  | .image => "image"
  | .audio => "audio"

/-- The `McpContentBlock` discriminated union.  The `unknown` constructor
models a block whose `type` tag is none of the recognized ones (the
`default` case of the source's switches). -/
inductive McpContentBlock where
  | text (text : String)
  | media (kind : MediaKind) (mimeType : String)
      (filePath uri data : Option String)
  | resource (text blob mimeType : Option String)
  | resourceLink (uri : String) (title name : Option String)
  | unknown (tag : String)
deriving DecidableEq, Repr

/-- A `boolean | string` value of the `isError` flag. -/
inductive JsBoolOrString where
  | jsBool (b : Bool)
  | jsStr (s : String)
deriving DecidableEq, Repr

/-- The nested `error` object of a function response. -/
structure McpError where
  isError : Option JsBoolOrString
deriving DecidableEq, Repr

/-- The object `functionResponse.response`: `content` is `some` exactly when the
`content` key holds an array of content blocks (`Array.isArray` succeeds). -/
structure FunctionResponseObj where
  content : Option (List McpContentBlock)
  error : Option McpError
deriving DecidableEq, Repr

/-- The `functionResponse` of a raw response part. -/
structure FunctionResponse where
  name : Option String
  response : Option FunctionResponseObj
deriving DecidableEq, Repr

/-- One element of the raw `Part[]` returned by `mcpTool.callTool`; only the
`functionResponse` field is ever inspected. -/
structure RawPart where
  functionResponse : Option FunctionResponse
deriving DecidableEq, Repr

/-- A GenAI `Part` produced by the normalizer. -/
inductive GenPart where
  | text (text : String)
  | fileData (fileUri mimeType : String)
  | inlineData (mimeType data : String)
deriving DecidableEq, Repr

/-! ## Content-to-model-parts transformation -/

/-- Embedding of `transformTextBlock`: a text block maps to one verbatim text part. -/
def transformTextBlock (text : String) : GenPart :=
  .text text

/-- Embedding of `transformImageAudioBlock`: a descriptive text part, then a file
reference (filePath, normalized to a `file://` URI, else the uri), else
inline base64 data, else a placeholder. -/
def transformImageAudioBlock (kind : MediaKind) (mimeType : String)
    (filePath uri data : Option String) (toolName : String) : List GenPart :=
  let fileUri : Option String :=
    if jsTruthyS filePath &&
        (filePath.getD "").startsWith "file://" then filePath
    else if jsTruthyS filePath then some ("file://" ++ filePath.getD "")
    else uri
  let hasInlineData : Bool :=
    match data with
    | some d => d.length > 0
    | none => false
  [ .text ("[Tool '" ++ toolName ++ "' provided the following "
      ++ kind.toTag ++ " data with mime-type: " ++ mimeType ++ "]"),
    match fileUri with
    | some u =>
      if u ≠ "" then .fileData u mimeType
      else if hasInlineData then .inlineData mimeType (data.getD "")
      else .text "[No image payload provided]"
    | none =>
      if hasInlineData then .inlineData mimeType (data.getD "")
      else .text "[No image payload provided]" ]

/-- Embedding of `transformResourceBlock`: resource text wins; else a blob becomes a
descriptive part plus inline data; else nothing. -/
def transformResourceBlock (text blob mimeType : Option String)
    (toolName : String) : List GenPart :=
  if jsTruthyS text then [.text (text.getD "")]
  else if jsTruthyS blob then
    let mt := jsOrDefault mimeType "application/octet-stream"
    [ .text ("[Tool '" ++ toolName
        ++ "' provided the following embedded resource with mime-type: "
        ++ mt ++ "]"),
      .inlineData mt (blob.getD "") ]
  else []

/-- Embedding of `transformResourceLinkBlock`. -/
def transformResourceLinkBlock (uri : String)
    (title name : Option String) : GenPart :=
  .text ("Resource Link: " ++ jsTemplateOpt (jsOrOpt title name)
    ++ " at " ++ uri)

/-- Navigation `rawResponse?.[0]?.functionResponse`. -/
def headFunctionResponse (sdkResponse : List RawPart) :
    Option FunctionResponse :=
  match sdkResponse.head? with
  | some p => p.functionResponse
  | none => none

/-- Navigation `rawResponse?.[0]?.functionResponse?.response?.['content']`,
`some` exactly when the content is a well-formed block array. -/
def contentOfRaw (rawResponse : List RawPart) :
    Option (List McpContentBlock) :=
  match headFunctionResponse rawResponse with
  | some fr =>
    match fr.response with
    | some resp => resp.content
    | none => none
  | none => none

/-- Embedding of `transformMcpContentToParts`: flat-map each block through its
transformer, dropping blocks that produce nothing. -/
def transformMcpContentToParts (sdkResponse : List RawPart) : List GenPart :=
  let funcResponse := headFunctionResponse sdkResponse
  let mcpContent := contentOfRaw sdkResponse
  let toolName :=
    jsOrDefault (match funcResponse with
      | some fr => fr.name
      | none => none) "unknown tool"
  match mcpContent with
  | none => [.text "[Error: Could not parse tool response]"]
  | some content =>
    content.flatMap (fun block =>
      match block with
      | .text t => [transformTextBlock t]
      | .media kind mimeType filePath uri data =>
        transformImageAudioBlock kind mimeType filePath uri data toolName
      | .resource text blob mimeType =>
        transformResourceBlock text blob mimeType toolName
      | .resourceLink uri title name =>
        [transformResourceLinkBlock uri title name]
      | .unknown _ => [])

/-! ## Display payload (`getStringifiedResultForDisplay`) -/

/-- One resolved image of an `ImageResult`. -/
structure ImageEntry where
  filePath : String
  mimeType : String
  alt : Option String
deriving DecidableEq, Repr

/-- The structured image display payload. -/
structure ImageResult where
  images : List ImageEntry
deriving DecidableEq, Repr

/-- The `ToolResultDisplay` union: either a plain display string or an image result. -/
inductive ToolResultDisplay where
  | str (s : String)
  | image (r : ImageResult)
deriving DecidableEq, Repr

/-- Explicit model of the file-system effects the display path performs:
`existsSync` (a check that throws is modelled as returning `false`, since
the source's catch branch continues exactly like the not-exists branch),
`writeOk` (whether `writeFileSync` at a path succeeds; `false` models the
catch branch), and `os.tmpdir()`. -/
structure Fs where
  existsSync : String → Bool
  writeOk : String → Bool
  tmpdir : String

/-- The fields of a Media block of kind image that passed the display
filter. -/
structure MediaView where
  mimeType : String
  filePath : Option String
  uri : Option String
  data : Option String
deriving DecidableEq, Repr

/-- The display path's filter over the content list: image-kind blocks
having at least one of the `filePath`, `uri`, `data` string fields. -/
def imageBlocksOf (content : List McpContentBlock) : List MediaView :=
  content.filterMap (fun block =>
    match block with
    | .media .image mimeType filePath uri data =>
      if filePath.isSome || uri.isSome || data.isSome then
        some ⟨mimeType, filePath, uri, data⟩
      else none
    | _ => none)

/-- The text payloads of the content list, used to build the shared image
caption. -/
def textPartsOf (content : List McpContentBlock) : List String :=
  content.filterMap (fun block =>
    match block with
    | .text t => some t
    | _ => none)

/-- The shared `alt` caption: the joined text parts, or `undefined` when
there are none. -/
def altOf (content : List McpContentBlock) : Option String :=
  let textParts := textPartsOf content
  if textParts.length > 0 then some (String.intercalate "\n" textParts)
  else none

/-- JS `String.prototype.split` with a one-character separator, over the
character list: splits at every occurrence of the separator. -/
def splitOnChar (sep : Char) : List Char → List (List Char)
  | [] => [[]]
  | c :: rest =>
    let r := splitOnChar sep rest
    if c == sep then [] :: r
    else
      match r with
      | [] => [[c]]
      | h :: t => (c :: h) :: t

/-- Embedding of `block.mimeType.split('/')[1] || 'png'`: the extension of the temp
file. -/
def extOf (mimeType : String) : String :=
  jsOrDefault (((splitOnChar '/' mimeType.data).map String.mk).get? 1) "png"

/-- The temp file name
`gemini-cli-image-mcp-{Date.now()}-{index}.{extension}`. -/
def tempImageFileName (now index : Nat) (mimeType : String) : String :=
  "gemini-cli-image-mcp-" ++ decRepr now ++ "-" ++ decRepr index
    ++ "." ++ extOf mimeType

/-- Embedding of `block.uri.replace('file://', '')` under the `startsWith('file://')`
guard: JS `replace` with a string pattern replaces the first occurrence,
which under the guard is the 7-character scheme at the front. -/
def stripFileScheme (u : String) : String :=
  if u.startsWith "file://" then u.drop 7 else u

/-- The body of the display path's per-image-block map: choose a path
candidate (truthy `filePath`, else truthy `uri` with the `file://` scheme
stripped), use it if it passes the existence check, otherwise fall back to
materializing truthy base64 `data` into a temp file; `none` models the
`null` of a block that resolves nothing (or whose temp file write threw). -/
def resolveImageEntry (fs : Fs) (now : Nat) (alt : Option String)
    (index : Nat) (b : MediaView) : Option ImageEntry :=
  let filePath : Option String :=
    if jsTruthyS b.filePath then b.filePath
    else if jsTruthyS b.uri then some (stripFileScheme (b.uri.getD ""))
    else none
  let tryData : Option ImageEntry :=
    if jsTruthyS b.data then
      let filename := tempImageFileName now index b.mimeType
      let filepath := fs.tmpdir ++ "/" ++ filename
      if fs.writeOk filepath then
        some ⟨filepath, b.mimeType, alt⟩
      else none
    else none
  match filePath with
  | some p =>
    if p == "" then tryData
    else if fs.existsSync p then some ⟨p, b.mimeType, alt⟩
    else tryData
  | none => tryData

/-- The one-line summary of a block on the text display path. -/
def displaySummaryLine : McpContentBlock → String
  | .text t => t
  | .media .image mimeType _ _ _ => "[Image: " ++ mimeType ++ "]"
  | .media .audio mimeType _ _ _ => "[Audio: " ++ mimeType ++ "]"
  | .resourceLink uri title name =>
    "[Link to " ++ jsTemplateOpt (jsOrOpt title name) ++ ": " ++ uri ++ "]"
  | .resource text _ mimeType =>
    if jsTruthyS text then text.getD ""
    else "[Embedded Resource: " ++ jsOrDefault mimeType "unknown type" ++ "]"
  | .unknown tag => "[Unknown content type: " ++ tag ++ "]"

/-- Modelled from the spec: `JSON.stringify(rawResponse, null, 2)` is a JS
builtin that is not part of this repository's sources; the display path
only uses the resulting text as an opaque diagnostic dump, and no claim
depends on its exact shape, so it is modelled as a flat rendering of the
raw parts.  The literal braces of JSON are written as escapes. -/
def jsonStringifyBlock : McpContentBlock → String
  | .text t => "\x7b\"type\":\"text\",\"text\":\"" ++ t ++ "\"\x7d"
  | .media kind mimeType filePath uri data =>
    "\x7b\"type\":\"" ++ kind.toTag ++ "\",\"mimeType\":\"" ++ mimeType
      ++ "\",\"filePath\":" ++ jsOrDefault filePath "null"
      ++ ",\"uri\":" ++ jsOrDefault uri "null"
      ++ ",\"data\":" ++ jsOrDefault data "null" ++ "\x7d"
  | .resource text blob mimeType =>
    "\x7b\"type\":\"resource\",\"resource\":\x7b\"text\":"
      ++ jsOrDefault text "null" ++ ",\"blob\":" ++ jsOrDefault blob "null"
      ++ ",\"mimeType\":" ++ jsOrDefault mimeType "null" ++ "\x7d\x7d"
  | .resourceLink uri title name =>
    "\x7b\"type\":\"resource_link\",\"uri\":\"" ++ uri ++ "\",\"title\":"
      ++ jsOrDefault title "null" ++ ",\"name\":" ++ jsOrDefault name "null"
      ++ "\x7d"
  | .unknown tag => "\x7b\"type\":\"" ++ tag ++ "\"\x7d"

/-- Modelled from the spec: continuation of `jsonStringifyBlock`,
rendering one raw response part of the `JSON.stringify` dump. -/
def jsonStringifyRawPart (p : RawPart) : String :=
  match p.functionResponse with
  | none => "\x7b\x7d"
  | some fr =>
    "\x7b\"functionResponse\":\x7b\"name\":" ++ jsOrDefault fr.name "null"
      ++ ",\"response\":"
      ++ (match fr.response with
          | none => "null"
          | some resp =>
            "\x7b\"content\":"
              ++ (match resp.content with
                  | none => "null"
                  | some blocks =>
                    "[" ++ String.intercalate ","
                      (blocks.map jsonStringifyBlock) ++ "]")
              ++ ",\"error\":"
              ++ (match resp.error with
                  | none => "null"
                  | some e =>
                    "\x7b\"isError\":"
                      ++ (match e.isError with
                          | none => "null"
                          | some (.jsBool b) => if b then "true" else "false"
                          | some (.jsStr s) => "\"" ++ s ++ "\"")
                      ++ "\x7d")
              ++ "\x7d")
      ++ "\x7d\x7d"

/-- Modelled from the spec: `JSON.stringify` of the whole raw response
array. -/
def jsonStringifyRaw (rawResponse : List RawPart) : String :=
  "[" ++ String.intercalate "," (rawResponse.map jsonStringifyRawPart) ++ "]"

/-- Embedding of `getStringifiedResultForDisplay`: a JSON dump when the content list is
malformed; else an `ImageResult` when the filtered image blocks resolve at
least one entry; else the joined per-block summary lines. -/
def getStringifiedResultForDisplay (fs : Fs) (now : Nat)
    (rawResponse : List RawPart) : ToolResultDisplay :=
  match contentOfRaw rawResponse with
  | none =>
    .str ("```json\n" ++ jsonStringifyRaw rawResponse ++ "\n```")
  | some mcpContent =>
    let imageBlocks := imageBlocksOf mcpContent
    let fromImages : Option ImageResult :=
      if imageBlocks.length > 0 then
        let alt := altOf mcpContent
        let images := imageBlocks.enum.filterMap
          (fun p => resolveImageEntry fs now alt p.1 p.2)
        if images.length > 0 then some ⟨images⟩ else none
      else none
    match fromImages with
    | some r => .image r
    | none =>
      .str (String.intercalate "\n" (mcpContent.map displaySummaryLine))

/-! ## Invocation executor (`DiscoveredMCPToolInvocation.execute`) -/

/-- The type `ToolParams = Record<string, unknown>`; the values are never inspected
by this layer, only carried and serialized, so they are modelled as
strings. -/
def ToolParams := List (String × String)
deriving DecidableEq, Repr

/-- A `FunctionCall` handed to `mcpTool.callTool`. -/
structure FunctionCall where
  name : String
  args : ToolParams
deriving DecidableEq, Repr

/-- Modelled from the spec: `safeJsonStringify` (from
`utils/safeJsonStringify.ts`, not among the sources) is a JSON
serialization of its argument; the executor only interpolates its result
into diagnostic messages. -/
def safeJsonStringifyParams (ps : ToolParams) : String :=
  "\x7b" ++ String.intercalate ","
    (ps.map (fun kv => "\"" ++ kv.1 ++ "\":\"" ++ kv.2 ++ "\"")) ++ "\x7d"

/-- Modelled from the spec: `safeJsonStringify` applied to a function
call. -/
def safeJsonStringifyCall (fc : FunctionCall) : String :=
  "\x7b\"name\":\"" ++ fc.name ++ "\",\"args\":"
    ++ safeJsonStringifyParams fc.args ++ "\x7d"

/-- Embedding of `isMCPToolError`: the first raw part carries
`functionResponse.response.error.isError` equal to boolean `true` or the
literal string `"true"`. -/
def isMCPToolError (rawResponseParts : List RawPart) : Bool :=
  match headFunctionResponse rawResponseParts with
  | none => false
  | some fr =>
    match fr.response with
    | none => false
    | some response =>
      match response.error with
      | none => false
      | some error =>
        match error.isError with
        | some (.jsBool b) => b
        | some (.jsStr s) => s == "true"
        | none => false

/-- The error taxonomy constructor used by this layer
(`ToolErrorType.MCP_TOOL_ERROR`; the full enum lives in `tool-error.ts`,
outside the sources — only the member this code uses is modelled). -/
inductive ToolErrorType where
  | mcpToolError
deriving DecidableEq, Repr

/-- The `error` field of a `ToolResult`. -/
structure ToolError where
  message : String
  type : ToolErrorType
deriving DecidableEq, Repr

/-- The `llmContent` field is a union of a plain string (the error path) and a part
list (the normalized path). -/
inductive LlmContent where
  | str (s : String)
  | parts (l : List GenPart)
deriving DecidableEq, Repr

/-- A `ToolResult`. -/
structure ToolResult where
  llmContent : LlmContent
  returnDisplay : ToolResultDisplay
  error : Option ToolError
deriving DecidableEq, Repr

/-- Outcome of `execute`: a rejected promise (carrying the JS error name
and message) or a resolved `ToolResult`.  The pure model covers the
entry-abort check and a completing transport call; a transport rejection
or a mid-flight abort is not representable in a pure embedding and no
claim needs it. -/
inductive ExecOutcome where
  | rejected (name message : String)
  | resolved (r : ToolResult)
deriving DecidableEq, Repr

/-- Result of running `execute`, paired with how many times the external
`mcpTool.callTool` was invoked. -/
structure ExecResult where
  outcome : ExecOutcome
  callToolCalls : Nat
deriving DecidableEq, Repr

/-- The invocation state `DiscoveredMCPToolInvocation` binds and that
`execute` reads (the trust/config data is consumed only by the gate, which
is modelled separately). -/
structure InvocationModel where
  serverName : String
  serverToolName : String
  displayName : String
  trust : Option Bool
  params : ToolParams

/-- Embedding of `DiscoveredMCPToolInvocation.execute`, with the already-aborted state
of the signal and the external callable passed explicitly.  If the signal
is aborted at entry the promise rejects with an `AbortError` before
`callTool` runs; otherwise the transport response is checked for an
embedded server-reported error, and either a structured
`MCP_TOOL_ERROR` result or the normalized content is returned. -/
def execute (fs : Fs) (now : Nat) (signalAborted : Bool)
    (callTool : List FunctionCall → List RawPart)
    (inv : InvocationModel) : ExecResult :=
  let functionCalls : List FunctionCall :=
    [⟨inv.serverToolName, inv.params⟩]
  if signalAborted then
    ⟨.rejected "AbortError" "Tool call aborted", 0⟩
  else
    let rawResponseParts := callTool functionCalls
    if isMCPToolError rawResponseParts then
      let errorMessage :=
        "MCP tool '" ++ inv.serverToolName
          ++ "' reported tool error for function call: "
          ++ safeJsonStringifyCall ⟨inv.serverToolName, inv.params⟩
          ++ " with response: " ++ jsonStringifyRaw rawResponseParts
      ⟨.resolved
        ⟨.str errorMessage,
         .str ("Error: MCP tool '" ++ inv.serverToolName
           ++ "' reported an error."),
         some ⟨errorMessage, .mcpToolError⟩⟩, 1⟩
    else
      ⟨.resolved
        ⟨.parts (transformMcpContentToParts rawResponseParts),
         getStringifiedResultForDisplay fs now rawResponseParts,
         none⟩, 1⟩

/-! ## Trust/confirmation gate
(`DiscoveredMCPToolInvocation.getConfirmationDetails`) -/

/-- Modelled from the spec: the three confirmation resolutions the gate
handles (`ToolConfirmationOutcome` is declared in `tools.ts`, outside the
sources; the spec names exactly these three). -/
inductive ToolConfirmationOutcome where
  | proceedOnce
  | proceedAlwaysServer
  | proceedAlwaysTool
deriving DecidableEq, Repr

/-- The data of a `ToolMcpConfirmationDetails` (its `onConfirm` closure is
modelled separately as the state transition `onConfirmOutcome`). -/
structure ToolMcpConfirmationDetails where
  title : String
  serverName : String
  toolName : String
  toolDisplayName : String
deriving DecidableEq, Repr

/-- The session allowlist (`DiscoveredMCPToolInvocation.allowlist`, a
static `Set<string>`), modelled as explicitly passed state. -/
abbrev Allowlist := List String

/-- Embedding of `getConfirmationDetails`: `none` models the source's `false` ("no
confirmation needed").  Trusted-folder-plus-trusted-tool wins first, then
an allowlisted server or tool key. -/
def getConfirmationDetails (allowlist : Allowlist)
    (isTrustedFolder : Bool) (trust : Option Bool)
    (serverName serverToolName displayName : String) :
    Option ToolMcpConfirmationDetails :=
  let serverAllowListKey := serverName
  let toolAllowListKey := serverName ++ "." ++ serverToolName
  if isTrustedFolder && trust == some true then none
  else if (List.contains allowlist serverAllowListKey
      || List.contains allowlist toolAllowListKey) then none
  else some ⟨"Confirm MCP Tool Execution", serverName, serverToolName,
    displayName⟩

/-- The `onConfirm` closure's effect on the allowlist: the always-server
and always-tool outcomes insert their key (`Set.add` is idempotent), every
other outcome leaves the allowlist unchanged. -/
def onConfirmOutcome (allowlist : Allowlist)
    (serverAllowListKey toolAllowListKey : String)
    (outcome : ToolConfirmationOutcome) : Allowlist :=
  match outcome with
  | .proceedAlwaysServer => List.insert serverAllowListKey allowlist
  | .proceedAlwaysTool => List.insert toolAllowListKey allowlist
  | .proceedOnce => allowlist

/-! ## Tool factory (`DiscoveredMCPTool`) -/

/-- The data of a `DiscoveredMCPTool`, parametric in the (never inspected)
parameter schema type.  `name` and `displayName` are the values the
constructor computes and passes to the base class; the `messageBus`
channel is opaque to this layer and omitted. -/
structure DiscoveredMCPTool (Schema : Type) where
  callTool : List FunctionCall → List RawPart
  serverName : String
  serverToolName : String
  description : String
  parameterSchema : Schema
  trust : Option Bool
  name : String
  displayName : String
  cliConfigTrusted : Option Bool
  extensionName : Option String
  extensionId : Option String

/-- The `DiscoveredMCPTool` constructor: the registry name is the override
when given, else the sanitized server tool name; the display name is
`"{serverToolName} ({serverName} MCP Server)"`. -/
def mkDiscoveredMCPTool {Schema : Type}
    (callTool : List FunctionCall → List RawPart)
    (serverName serverToolName description : String)
    (parameterSchema : Schema) (trust : Option Bool)
    (nameOverride : Option String) (cliConfigTrusted : Option Bool)
    (extensionName extensionId : Option String) :
    DiscoveredMCPTool Schema :=
  { callTool, serverName, serverToolName, description, parameterSchema,
    trust,
    name := nameOverride.getD (generateValidName serverToolName),
    displayName := serverToolName ++ " (" ++ serverName ++ " MCP Server)",
    cliConfigTrusted, extensionName, extensionId }

/-- Embedding of `asFullyQualifiedTool`: rebuild the tool through the constructor with
the name override `serverName ++ "__" ++ serverToolName` (the source's
`getFullyQualified` prefix helper concatenated with the raw tool name),
carrying every other field over. -/
def asFullyQualifiedTool {Schema : Type} (t : DiscoveredMCPTool Schema) :
    DiscoveredMCPTool Schema :=
  mkDiscoveredMCPTool t.callTool t.serverName t.serverToolName
    t.description t.parameterSchema t.trust
    (some (t.serverName ++ "__" ++ t.serverToolName))
    t.cliConfigTrusted t.extensionName t.extensionId

/-! ## Shared helper lemmas -/

/-- Substitution always yields a character of the sanitizer's alphabet. -/
theorem validNameChar_subst (c : Char) :
    validNameChar (if validNameChar c then c else '_') = true := by
  by_cases h : validNameChar c = true
  · simp [h]
  · simp only [h]
    simp [validNameChar]

/-- On an already-valid character list the substitution map is the
identity. -/
theorem substMap_of_valid (l : List Char)
    (h : ∀ c ∈ l, validNameChar c = true) :
    l.map (fun c => if validNameChar c then c else '_') = l := by
  induction l with
  | nil => rfl
  | cons c l ih =>
    have hc := h c (by simp)
    simp only [List.map_cons, hc, if_true]
    rw [ih (fun x hx => h x (by simp [hx]))]

/-- Every character of a sanitized name lies in the alphabet. -/
theorem generateValidName_chars_valid (s : String) :
    ∀ c ∈ (generateValidName s).data, validNameChar c = true := by
  intro c hc
  unfold generateValidName at hc
  set subst := s.data.map (fun c => if validNameChar c then c else '_')
    with hsubst
  have hmem : ∀ x ∈ subst, validNameChar x = true := by
    intro x hx
    rw [hsubst] at hx
    obtain ⟨y, _, hy⟩ := List.mem_map.mp hx
    rw [← hy]
    exact validNameChar_subst y
  by_cases hlen : subst.length > 63
  · simp only [hlen, if_true] at hc
    rcases List.mem_append.mp hc with h1 | h1
    · rcases List.mem_append.mp h1 with h2 | h2
      · exact hmem c (List.mem_of_mem_take h2)
      · have hc' : c = '_' := by simpa using h2
        subst hc'
        decide
    · exact hmem c (List.mem_of_mem_drop h1)
  · simp only [hlen, if_false] at hc
    exact hmem c hc

/-- A sanitized name is at most 63 characters long. -/
theorem generateValidName_length_le (s : String) :
    (generateValidName s).length ≤ 63 := by
  unfold generateValidName
  set subst := s.data.map (fun c => if validNameChar c then c else '_')
  by_cases hlen : subst.length > 63
  · simp only [hlen, if_true, String.length]
    simp only [List.length_append, List.length_take, List.length_drop,
      List.length_cons, List.length_nil]
    omega
  · simp only [hlen, if_false, String.length]
    omega

/-- The truncation branch: when the substituted string exceeds 63
characters, the result keeps the first 28, `___`, and the last 32, for a
length of exactly 63. -/
theorem generateValidName_truncation (s : String)
    (h : 63 < (s.data.map (fun c => if validNameChar c then c else '_')).length) :
    generateValidName s
      = ⟨(s.data.map (fun c => if validNameChar c then c else '_')).take 28
          ++ ['_', '_', '_']
          ++ (s.data.map (fun c => if validNameChar c then c else '_')).drop
              ((s.data.map (fun c => if validNameChar c then c else '_')).length
                - 32)⟩
    ∧ (generateValidName s).length = 63 := by
  unfold generateValidName
  set subst := s.data.map (fun c => if validNameChar c then c else '_')
  have h' : subst.length > 63 := h
  refine ⟨by simp only [h', if_true], ?_⟩
  simp only [h', if_true, String.length]
  simp only [List.length_append, List.length_take, List.length_drop,
    List.length_cons, List.length_nil]
  omega

/-- The no-truncation branch: when the substituted string is at most 63
characters long, the result is exactly the substituted string. -/
theorem generateValidName_no_truncation (s : String)
    (h : (s.data.map (fun c => if validNameChar c then c else '_')).length
        ≤ 63) :
    generateValidName s
      = ⟨s.data.map (fun c => if validNameChar c then c else '_')⟩ := by
  unfold generateValidName
  set subst := s.data.map (fun c => if validNameChar c then c else '_')
  have h' : ¬ (subst.length > 63) := by omega
  simp only [h', if_false]

/-- A nonempty input sanitizes to a nonempty name. -/
theorem generateValidName_ne_empty (s : String) (h : s ≠ "") :
    generateValidName s ≠ "" := by
  unfold generateValidName
  set subst := s.data.map (fun c => if validNameChar c then c else '_')
    with hsubst
  have hd : s.data ≠ [] := by
    intro hnil
    exact h (by cases s; simp_all)
  have hlen0 : 0 < subst.length := by
    rw [hsubst, List.length_map]
    exact List.length_pos.mpr hd
  by_cases hlen : subst.length > 63
  · simp only [hlen, if_true]
    intro hcontr
    have : (List.take 28 subst ++ ['_', '_', '_']
        ++ List.drop (subst.length - 32) subst) = ([] : List Char) :=
      congrArg String.data hcontr
    simp at this
  · simp only [hlen, if_false]
    intro hcontr
    have : subst = ([] : List Char) := congrArg String.data hcontr
    rw [this] at hlen0
    simp at hlen0

/-! ## C4: the sanitizer contract -/

/-- C4 counterexample: the claim requires the output to match the regex
`[A-Za-z0-9_.-]+` for EVERY input, but the empty input yields the empty
output, which a one-or-more character-class regex does not match. -/
theorem generateValidName_empty_counterexample :
    generateValidName "" = "" ∧ (generateValidName "").length = 0 := by
  constructor <;> rfl

/-- C4 (amended): for every input, every output character lies in
`[A-Za-z0-9_.-]` and the output length is at most 63 (the output is empty
exactly when the input is, so the `+` of the claimed regex holds for
nonempty inputs); when the character-substituted string is at most 63
characters the output is exactly that string, and whenever it exceeds 63
characters the output is its first 28 characters, `___`, and its last 32,
of length exactly 63. -/
theorem generateValidName_contract (s : String) :
    (∀ c ∈ (generateValidName s).data, validNameChar c = true)
    ∧ (generateValidName s).length ≤ 63
    ∧ (s ≠ "" → generateValidName s ≠ "")
    ∧ ((s.data.map (fun c => if validNameChar c then c else '_')).length ≤ 63 →
        generateValidName s
          = ⟨s.data.map (fun c => if validNameChar c then c else '_')⟩)
    ∧ (63 < (s.data.map (fun c => if validNameChar c then c else '_')).length →
        generateValidName s
          = ⟨(s.data.map (fun c => if validNameChar c then c else '_')).take 28
              ++ ['_', '_', '_']
              ++ (s.data.map (fun c => if validNameChar c then c else '_')).drop
                  ((s.data.map
                      (fun c => if validNameChar c then c else '_')).length
                    - 32)⟩
        ∧ (generateValidName s).length = 63) :=
  ⟨generateValidName_chars_valid s, generateValidName_length_le s,
   generateValidName_ne_empty s, generateValidName_no_truncation s,
   generateValidName_truncation s⟩

/-- C4 witness: the amended contract applied to a concrete 100-character
input. -/
theorem generateValidName_contract_witness :
    (String.mk (List.replicate 100 'a') ≠ ""
      → generateValidName (String.mk (List.replicate 100 'a')) ≠ "")
    ∧ (generateValidName (String.mk (List.replicate 100 'a'))).length = 63 :=
  ⟨(generateValidName_contract (String.mk (List.replicate 100 'a'))).2.2.1,
   ((generateValidName_contract (String.mk (List.replicate 100 'a'))).2.2.2.2
      (by decide)).2⟩

/-! ## C10: idempotence of the sanitizer -/

/-- A string whose characters are already in the alphabet and whose length
is already at most 63 is a fixed point of the sanitizer. -/
theorem generateValidName_fixes_valid (r : String)
    (hval : ∀ c ∈ r.data, validNameChar c = true)
    (hlen : r.length ≤ 63) :
    generateValidName r = r := by
  simp only [generateValidName]
  rw [substMap_of_valid r.data hval]
  have hnotlong : ¬ (r.data.length > 63) := by
    have heq : r.data.length = r.length := rfl
    omega
  simp only [hnotlong, if_false]

/-- C10: `generateValidName` is idempotent — an already-sanitized name
passes through unchanged, because its characters are already in the
alphabet and its length is already at most 63. -/
theorem generateValidName_idempotent (s : String) :
    generateValidName (generateValidName s) = generateValidName s :=
  generateValidName_fixes_valid (generateValidName s)
    (generateValidName_chars_valid s) (generateValidName_length_le s)

/-! ## C2: entry abort performs no external call -/

/-- C2: when the cancellation signal is already aborted at entry, `execute`
rejects with an `AbortError` and the external `callTool` is never invoked
(call count zero), for every callable and every invocation. -/
theorem execute_aborted_no_call (fs : Fs) (now : Nat)
    (callTool : List FunctionCall → List RawPart) (inv : InvocationModel) :
    (execute fs now true callTool inv).outcome
        = .rejected "AbortError" "Tool call aborted"
    ∧ (execute fs now true callTool inv).callToolCalls = 0 :=
  ⟨rfl, rfl⟩

/-! ## C7: text block round trip -/

/-- A file system model whose queries all fail; the text round trip never
touches it. -/
def fsUnused : Fs :=
  ⟨fun _ => false, fun _ => false, "/tmp"⟩

/-- C7: the text block `{type:"text", text:"hello"}` is normalized to
exactly one model part `{text:"hello"}`, and when it is the only block of
the content list the display payload is the plain string `"hello"`. -/
theorem text_block_round_trip :
    transformTextBlock "hello" = .text "hello"
    ∧ transformMcpContentToParts
        [⟨some ⟨some "tool", some ⟨some [.text "hello"], none⟩⟩⟩]
        = [.text "hello"]
    ∧ getStringifiedResultForDisplay fsUnused 0
        [⟨some ⟨some "tool", some ⟨some [.text "hello"], none⟩⟩⟩]
        = .str "hello" :=
  ⟨rfl, rfl, rfl⟩

/-! ## C8: fully qualified tool derivation -/

/-- C8: `asFullyQualifiedTool` produces a tool whose registry name is
`serverName ++ "__" ++ serverToolName` (double underscore) and carries
every other datum of the original over unchanged; the input is a pure
value, so the derivation cannot mutate it. -/
theorem asFullyQualifiedTool_correct {Schema : Type}
    (t : DiscoveredMCPTool Schema) :
    (asFullyQualifiedTool t).name = t.serverName ++ "__" ++ t.serverToolName
    ∧ (asFullyQualifiedTool t).serverName = t.serverName
    ∧ (asFullyQualifiedTool t).serverToolName = t.serverToolName
    ∧ (asFullyQualifiedTool t).description = t.description
    ∧ (asFullyQualifiedTool t).parameterSchema = t.parameterSchema
    ∧ (asFullyQualifiedTool t).trust = t.trust
    ∧ (asFullyQualifiedTool t).callTool = t.callTool
    ∧ (asFullyQualifiedTool t).cliConfigTrusted = t.cliConfigTrusted
    ∧ (asFullyQualifiedTool t).extensionName = t.extensionName
    ∧ (asFullyQualifiedTool t).extensionId = t.extensionId :=
  ⟨rfl, rfl, rfl, rfl, rfl, rfl, rfl, rfl, rfl, rfl⟩

/-! ## C5: the proceed-always-server outcome -/

/-- An allowlisted server key makes the gate decide "no confirmation
needed", whatever the folder-trust and per-tool trust flags say. -/
theorem gate_none_of_server_allowlisted (allow : Allowlist) (s : String)
    (hmem : s ∈ allow) (ft : Bool) (tr : Option Bool) (t d : String) :
    getConfirmationDetails allow ft tr s t d = none := by
  unfold getConfirmationDetails
  by_cases h1 : (ft && tr == some true) = true
  · simp only [h1, if_true]
  · have hs : List.contains allow s = true := List.elem_iff.mpr hmem
    have hc : (List.contains allow s
        || List.contains allow (s ++ "." ++ t)) = true := by
      simp only [Bool.or_eq_true]
      exact Or.inl hs
    simp only [h1, if_false, hc, if_true]
    simp

/-- C5: confirming the proceed-always-server outcome for server `S` adds
`S` to the allowlist; afterwards — and after any further monotonic growth
of the session allowlist — the gate's decision for any tool under `S` is
"no confirmation needed", independently of the folder-trust and per-tool
trust flags; the proceed-once outcome leaves the allowlist unchanged;
and every outcome only grows the allowlist. -/
theorem gate_proceed_always_server (allow : Allowlist) (s tool : String) :
    (∀ allow' : Allowlist,
        (∀ x, x ∈ onConfirmOutcome allow s (s ++ "." ++ tool)
            .proceedAlwaysServer → x ∈ allow') →
        ∀ (ft : Bool) (tr : Option Bool) (t d : String),
          getConfirmationDetails allow' ft tr s t d = none)
    ∧ (∀ k₁ k₂ : String, onConfirmOutcome allow k₁ k₂ .proceedOnce = allow)
    ∧ (∀ (k₁ k₂ : String) (o : ToolConfirmationOutcome) (x : String),
        x ∈ allow → x ∈ onConfirmOutcome allow k₁ k₂ o) := by
  refine ⟨?_, fun _ _ => rfl, ?_⟩
  · intro allow' hsub ft tr t d
    have hs : s ∈ onConfirmOutcome allow s (s ++ "." ++ tool)
        .proceedAlwaysServer := by
      simp only [onConfirmOutcome]
      exact List.mem_insert_self s allow
    exact gate_none_of_server_allowlisted allow' s (hsub s hs) ft tr t d
  · intro k₁ k₂ o x hx
    cases o with
    | proceedOnce => exact hx
    | proceedAlwaysServer => exact List.mem_insert_of_mem hx
    | proceedAlwaysTool => exact List.mem_insert_of_mem hx

/-- C5 witness: a fresh session allowlist, the always-server outcome for
server `"srv"`, then a decision for a different tool under `"srv"` in an
untrusted folder. -/
theorem gate_proceed_always_server_witness :
    getConfirmationDetails ["srv"] false none "srv" "otherTool" "disp"
      = none :=
  (gate_proceed_always_server [] "srv" "toolA").1 ["srv"]
    (by
      intro x hx
      simp only [onConfirmOutcome] at hx
      simpa using hx)
    false none "otherTool" "disp"

/-! ## C3: server-reported tool errors -/

/-- Substring containment witnessed by an explicit decomposition. -/
def ContainsStr (s sub : String) : Prop :=
  ∃ pre post, s = pre ++ sub ++ post

/-- C3: when the transport response's first element carries
`functionResponse.response.error.isError` equal to boolean `true` or the
literal string `"true"`, `execute` resolves to a structured
`MCP_TOOL_ERROR` result whose diagnostic message contains the serialized
function call (tool name and original parameters) and the serialized raw
response, whose user-facing display names the tool, and whose content is
the plain diagnostic string — no content normalization is performed. -/
theorem execute_mcp_error_result (fs : Fs) (now : Nat)
    (callTool : List FunctionCall → List RawPart) (inv : InvocationModel)
    (h : ∃ fr resp err v,
        headFunctionResponse (callTool [⟨inv.serverToolName, inv.params⟩])
            = some fr
        ∧ fr.response = some resp
        ∧ resp.error = some err
        ∧ err.isError = some v
        ∧ (v = .jsBool true ∨ v = .jsStr "true")) :
    ∃ msg,
      execute fs now false callTool inv
        = ⟨.resolved
            ⟨.str msg,
             .str ("Error: MCP tool '" ++ inv.serverToolName
               ++ "' reported an error."),
             some ⟨msg, .mcpToolError⟩⟩, 1⟩
      ∧ ContainsStr msg
          (safeJsonStringifyCall ⟨inv.serverToolName, inv.params⟩)
      ∧ ContainsStr msg
          (jsonStringifyRaw (callTool [⟨inv.serverToolName, inv.params⟩]))
      ∧ ContainsStr msg inv.serverToolName := by
  obtain ⟨fr, resp, err, v, hfr, hresp, herr, hv, hval⟩ := h
  have his : isMCPToolError (callTool [⟨inv.serverToolName, inv.params⟩])
      = true := by
    unfold isMCPToolError
    simp only [hfr, hresp, herr, hv]
    rcases hval with h1 | h1
    · rw [h1]
    · rw [h1]
      simp
  refine ⟨"MCP tool \'" ++ inv.serverToolName
      ++ "\' reported tool error for function call: "
      ++ safeJsonStringifyCall ⟨inv.serverToolName, inv.params⟩
      ++ " with response: "
      ++ jsonStringifyRaw (callTool [⟨inv.serverToolName, inv.params⟩]),
    ?_, ?_, ?_, ?_⟩
  · unfold execute
    simp only [Bool.false_eq_true, if_false, his, if_true]
  · exact ⟨"MCP tool \'" ++ inv.serverToolName
        ++ "\' reported tool error for function call: ",
      " with response: "
        ++ jsonStringifyRaw (callTool [⟨inv.serverToolName, inv.params⟩]),
      by simp [String.append_assoc]⟩
  · refine ⟨"MCP tool \'" ++ inv.serverToolName
        ++ "\' reported tool error for function call: "
        ++ safeJsonStringifyCall ⟨inv.serverToolName, inv.params⟩
        ++ " with response: ", "", ?_⟩
    simp [String.append_assoc]
  · exact ⟨"MCP tool \'",
      "\' reported tool error for function call: "
        ++ safeJsonStringifyCall ⟨inv.serverToolName, inv.params⟩
        ++ " with response: "
        ++ jsonStringifyRaw (callTool [⟨inv.serverToolName, inv.params⟩]),
      by simp [String.append_assoc]⟩

/-- C3 witness: a concrete invocation against a callable that reports an
embedded error with the string flag `"true"`. -/
theorem execute_mcp_error_result_witness :
    ∃ msg,
      execute fsUnused 0 false
          (fun _ => [⟨some ⟨some "t", some ⟨none, some ⟨some (.jsStr "true")⟩⟩⟩⟩])
          ⟨"srv", "t", "d", none, [("k", "v")]⟩
        = ⟨.resolved
            ⟨.str msg,
             .str ("Error: MCP tool \'" ++ "t" ++ "\' reported an error."),
             some ⟨msg, .mcpToolError⟩⟩, 1⟩
      ∧ ContainsStr msg (safeJsonStringifyCall ⟨"t", [("k", "v")]⟩)
      ∧ ContainsStr msg
          (jsonStringifyRaw
            [⟨some ⟨some "t", some ⟨none, some ⟨some (.jsStr "true")⟩⟩⟩⟩])
      ∧ ContainsStr msg "t" :=
  execute_mcp_error_result fsUnused 0
    (fun _ => [⟨some ⟨some "t", some ⟨none, some ⟨some (.jsStr "true")⟩⟩⟩⟩])
    ⟨"srv", "t", "d", none, [("k", "v")]⟩
    ⟨⟨some "t", some ⟨none, some ⟨some (.jsStr "true")⟩⟩⟩,
     ⟨none, some ⟨some (.jsStr "true")⟩⟩,
     ⟨some (.jsStr "true")⟩, .jsStr "true",
     rfl, rfl, rfl, rfl, Or.inr rfl⟩

/-! ## C6: the ImageResult invariant -/

/-- C6: the display payload is an `ImageResult` only when the content list
is well formed and at least one filtered image block resolved to an entry;
the images list of such a result is nonempty.  In every other case the
display payload is a plain string, since `ToolResultDisplay` has exactly
these two shapes. -/
theorem display_image_requires_resolvable (fs : Fs) (now : Nat)
    (raw : List RawPart) (r : ImageResult)
    (h : getStringifiedResultForDisplay fs now raw = .image r) :
    r.images ≠ []
    ∧ ∃ content, contentOfRaw raw = some content
        ∧ ∃ p ∈ (imageBlocksOf content).enum,
            (resolveImageEntry fs now (altOf content) p.1 p.2).isSome := by
  unfold getStringifiedResultForDisplay at h
  cases hc : contentOfRaw raw with
  | none =>
    rw [hc] at h
    exact absurd h (by simp)
  | some content =>
    rw [hc] at h
    simp only at h
    by_cases hb : (imageBlocksOf content).length > 0
    · simp only [hb, if_true] at h
      by_cases hi : ((imageBlocksOf content).enum.filterMap
          (fun p => resolveImageEntry fs now (altOf content) p.1 p.2)).length
            > 0
      · simp only [hi, if_true] at h
        have hr : r = ⟨(imageBlocksOf content).enum.filterMap
            (fun p => resolveImageEntry fs now (altOf content) p.1 p.2)⟩ := by
          cases h
          rfl
        subst hr
        have hne : (imageBlocksOf content).enum.filterMap
            (fun p => resolveImageEntry fs now (altOf content) p.1 p.2)
              ≠ [] := by
          intro hnil
          rw [hnil] at hi
          simp at hi
        refine ⟨hne, content, rfl, ?_⟩
        by_contra hall
        push_neg at hall
        apply hne
        rw [List.filterMap_eq_nil_iff]
        intro p hp
        have := hall p hp
        exact Option.not_isSome_iff_eq_none.mp this
      · simp only [hi, if_false] at h
        exact absurd h (by simp)
    · simp only [hb, if_false] at h
      exact absurd h (by simp)

/-- C6 witness: a well-formed response with one image block whose file
path exists resolves to an image display. -/
theorem display_image_requires_resolvable_witness :
    (⟨[⟨"/a.png", "image/png", none⟩]⟩ : ImageResult).images ≠ []
    ∧ ∃ content,
        contentOfRaw
            [⟨some ⟨some "t", some ⟨some
              [.media .image "image/png" (some "/a.png") none none],
              none⟩⟩⟩]
          = some content
        ∧ ∃ p ∈ (imageBlocksOf content).enum,
            (resolveImageEntry
              ⟨fun p => p == "/a.png", fun _ => false, "/tmp"⟩ 0
              (altOf content) p.1 p.2).isSome :=
  display_image_requires_resolvable
    ⟨fun p => p == "/a.png", fun _ => false, "/tmp"⟩ 0
    [⟨some ⟨some "t", some ⟨some
      [.media .image "image/png" (some "/a.png") none none], none⟩⟩⟩]
    ⟨[⟨"/a.png", "image/png", none⟩]⟩
    (by rfl)

/-! ## C1: image path resolution priority -/

/-- A file system on which `/b.png` exists but `/missing.png` does not. -/
def fsOnlyB : Fs :=
  ⟨fun p => p == "/b.png", fun _ => true, "/tmp"⟩

/-- C1 counterexample: a block with `filePath="/missing.png"` (not on
disk), `uri="file:///b.png"` (`/b.png` on disk) and no base64 data.  The
claim's priority-with-fallthrough would resolve the display image to
`/b.png`; the code never consults the uri once a truthy filePath is
present, drops the block, and produces the text summary instead. -/
theorem image_priority_counterexample :
    getStringifiedResultForDisplay fsOnlyB 0
        [⟨some ⟨some "t", some ⟨some
          [.media .image "image/png" (some "/missing.png")
            (some "file:///b.png") none], none⟩⟩⟩]
      = .str "[Image: image/png]"
    ∧ getStringifiedResultForDisplay fsOnlyB 0
        [⟨some ⟨some "t", some ⟨some
          [.media .image "image/png" (some "/missing.png")
            (some "file:///b.png") none], none⟩⟩⟩]
      ≠ .image ⟨[⟨"/b.png", "image/png", none⟩]⟩ := by
  constructor
  · rfl
  · intro h
    exact absurd (rfl.trans h) (by decide)

/-- C1 (amended): the display path picks one path candidate — the truthy
`filePath`, else the truthy `uri` with a leading `file://` scheme stripped
— and uses it when the existence check passes; when a truthy `filePath` is
present the `uri` is never consulted, and when the selected candidate
fails the existence check the code falls back directly to materializing
the base64 payload (not to the next path candidate); in particular a
block with both `filePath="/a.png"` (existing) and `uri="file:///b.png"`
resolves to `/a.png`. -/
theorem resolveImageEntry_priority (fs : Fs) (now : Nat)
    (alt : Option String) (i : Nat) (b : MediaView) :
    (∀ p, b.filePath = some p → p ≠ "" → fs.existsSync p = true →
        resolveImageEntry fs now alt i b = some ⟨p, b.mimeType, alt⟩)
    ∧ (∀ u u' : Option String, jsTruthyS b.filePath = true →
        resolveImageEntry fs now alt i { b with uri := u }
          = resolveImageEntry fs now alt i { b with uri := u' })
    ∧ (∀ u, jsTruthyS b.filePath = false → b.uri = some u → u ≠ "" →
        stripFileScheme u ≠ "" → fs.existsSync (stripFileScheme u) = true →
        resolveImageEntry fs now alt i b
          = some ⟨stripFileScheme u, b.mimeType, alt⟩)
    ∧ (∀ p, b.filePath = some p → p ≠ "" → fs.existsSync p = false →
        resolveImageEntry fs now alt i b
          = (if jsTruthyS b.data then
               (if fs.writeOk (fs.tmpdir ++ "/"
                    ++ tempImageFileName now i b.mimeType) then
                  some ⟨fs.tmpdir ++ "/" ++ tempImageFileName now i b.mimeType,
                    b.mimeType, alt⟩
                else none)
             else none)) := by
  obtain ⟨mt, fp, uu, d⟩ := b
  refine ⟨?_, ?_, ?_, ?_⟩
  · intro p hp hne hex
    simp only at hp
    subst hp
    simp [resolveImageEntry, jsTruthyS, hne, hex]
  · intro u u' ht
    simp only at ht
    simp [resolveImageEntry, ht]
  · intro u hf hu hne hne' hex
    simp only at hf hu
    subst hu
    simp only [resolveImageEntry]
    rw [hf]
    simp [jsTruthyS, hne, hne', hex]
  · intro p hp hne hex
    simp only at hp
    subst hp
    simp [resolveImageEntry, jsTruthyS, hne, hex]

/-- C1 witness: the amended priority applied to the claim's own example —
`filePath="/a.png"` existing wins over `uri="file:///b.png"`. -/
theorem resolveImageEntry_priority_witness :
    resolveImageEntry ⟨fun p => p == "/a.png" || p == "/b.png",
        fun _ => true, "/tmp"⟩ 0 none 0
        ⟨"image/png", some "/a.png", some "file:///b.png", none⟩
      = some ⟨"/a.png", "image/png", none⟩ :=
  (resolveImageEntry_priority ⟨fun p => p == "/a.png" || p == "/b.png",
      fun _ => true, "/tmp"⟩ 0 none 0
      ⟨"image/png", some "/a.png", some "file:///b.png", none⟩).1
    "/a.png" rfl (by decide) (by decide)

/-! ## C9: temp file name uniqueness -/

/-- Reading a big-endian decimal digit list back as a number. -/
def evalDecDigits (l : List Char) : Nat :=
  l.foldl (fun a c => 10 * a + (c.toNat - 48)) 0

/-- The code of a decimal digit character. -/
theorem decDigitChar_toNat (n : Nat) (h : n < 10) :
    (decDigitChar n).toNat = 48 + n := by
  interval_cases n <;> rfl

/-- With enough fuel, evaluating the printed digits recovers the number. -/
theorem evalDecDigits_decDigitsAux (fuel : Nat) :
    ∀ n, n < fuel → evalDecDigits (decDigitsAux fuel n) = n := by
  induction fuel with
  | zero => omega
  | succ f ih =>
    intro n hn
    rw [decDigitsAux]
    by_cases h10 : n < 10
    · simp only [h10, if_true]
      simp [evalDecDigits, decDigitChar_toNat n h10]
    · simp only [h10, if_false]
      have hlt : n / 10 < f := by
        have h1 : n / 10 < n := Nat.div_lt_self (by omega) (by omega)
        omega
      have ihd := ih (n / 10) hlt
      unfold evalDecDigits at ihd ⊢
      rw [List.foldl_append, ihd]
      have hm : (decDigitChar (n % 10)).toNat = 48 + n % 10 :=
        decDigitChar_toNat (n % 10) (Nat.mod_lt n (by omega))
      simp only [List.foldl_cons, List.foldl_nil, hm]
      omega

/-- Decimal printing recovers the number, hence is injective. -/
theorem evalDecDigits_decDigits (n : Nat) :
    evalDecDigits (decDigits n) = n :=
  evalDecDigits_decDigitsAux (n + 1) n (by omega)

/-- Decimal digit lists are injective in the number. -/
theorem decDigits_injective {m n : Nat} (h : decDigits m = decDigits n) :
    m = n := by
  have he := congrArg evalDecDigits h
  rwa [evalDecDigits_decDigits, evalDecDigits_decDigits] at he

/-- A file system whose existence checks fail and whose writes succeed,
with `/tmp` as the temp directory. -/
def fsTmpWrites : Fs :=
  ⟨fun _ => false, fun _ => true, "/tmp"⟩

/-- C9 counterexample: two normalizations materializing DIFFERENT base64
image payloads in the same timestamp tick and at the same block index
produce the SAME temp file name — the names are derived only from the
tick, the index, and the mime type, so they are not unique across
concurrent invocations in the same tick, contrary to the claim. -/
theorem temp_name_collision_counterexample :
    getStringifiedResultForDisplay fsTmpWrites 1000
        [⟨some ⟨some "t", some ⟨some
          [.media .image "image/png" none none (some "QUFB")], none⟩⟩⟩]
      = .image ⟨[⟨"/tmp/gemini-cli-image-mcp-1000-0.png", "image/png",
          none⟩]⟩
    ∧ getStringifiedResultForDisplay fsTmpWrites 1000
        [⟨some ⟨some "t", some ⟨some
          [.media .image "image/png" none none (some "QkJC")], none⟩⟩⟩]
      = .image ⟨[⟨"/tmp/gemini-cli-image-mcp-1000-0.png", "image/png",
          none⟩]⟩
    ∧ tempImageFileName 1000 0 "image/png"
      = tempImageFileName 1000 0 "image/png" := by
  refine ⟨by decide, by decide, rfl⟩

/-- C9 (amended): within one tick the temp file names of two
materializations at DISTINCT block indices (same mime type) are distinct —
the name determines the index, because the decimal index digits sit
between a fixed prefix and a fixed suffix.  Uniqueness therefore holds
across the blocks of a single normalization (which are enumerated with
distinct indices), but not across concurrent invocations sharing tick,
index, and extension. -/
theorem tempImageFileName_injective_in_index (now i j : Nat)
    (mimeType : String) (h : i ≠ j) :
    tempImageFileName now i mimeType ≠ tempImageFileName now j mimeType := by
  intro heq
  apply h
  apply decDigits_injective
  unfold tempImageFileName decRepr at heq
  have hdata := congrArg String.data heq
  simp only [String.data_append] at hdata
  have h1 := List.append_cancel_right hdata
  have h2 := List.append_cancel_right h1
  exact List.append_cancel_left h2

/-- C9 witness: distinct indices 0 and 1 in the same tick give distinct
names. -/
theorem tempImageFileName_injective_in_index_witness :
    tempImageFileName 1000 0 "image/png"
      ≠ tempImageFileName 1000 1 "image/png" :=
  tempImageFileName_injective_in_index 1000 0 1 "image/png" (by decide)

end GeminiMcp
